import Mathlib

/-!
Shallow embedding of the heap capture and trace analysis engine of
`src/cdp-handlers/heap-handler.ts` (`HeapHandler`): the chunked capture sink
(`captureHeapSnapshotRaw`'s `onChunk` handler), the parse gate in
`getHeapSnapshot` / `trackAllocations`, the object-graph decoder
(`parseV8HeapSnapshot`), the allocation-trace decoder
(`parseV8HeapSnapshotAllocationTrace`), and the CDP call sequence of
`trackAllocations`.

JavaScript numbers that hold byte counts, sizes, counts and indices are
modelled as `Int` (or `Nat` where the source can only ever produce a
non-negative value); `arr[i]` on a possibly out-of-range index is modelled
with `Option`, and `x ?? d` with `Option.getD`.
-/

/-! ## Text chunks

A text chunk (a JavaScript string) is modelled as the list of UTF-8 byte
widths of its UTF-16 code units: `chunk.length` is `List.length`,
`Buffer.byteLength(chunk, 'utf8')` is the sum of the widths, and
`chunk.slice(0, n)` is `List.take n`. A single-byte (ASCII) chunk is one
whose widths are all 1. -/

abbrev Chunk := List Nat

/-- Buffer.byteLength(chunk, 'utf8'). -/
def chunkByteLength (c : Chunk) : Nat := c.sum

/-! ## Chunked capture sink

Embedding of the `onChunk` closure of `HeapHandler.captureHeapSnapshotRaw`
together with its captured mutable variables (`totalReceivedBytes`,
`fileBytesWritten`, `snapshotTruncated`, `inlineChunks`, `inlineBytes`,
`inlineTruncated`, `streamError`, `limitations`). The write stream's
`'error'` listener (which assigns `streamError`) is modelled as a separate
event interleaved with chunk events. -/

structure SinkCfg where
  shouldReturnInline : Bool
  maxSnapshotBytes : Nat
  maxInlineBytes : Nat

structure SinkState where
  totalReceivedBytes : Nat
  fileChunks : List Chunk
  fileBytesWritten : Nat
  snapshotTruncated : Bool
  inlineChunks : List Chunk
  inlineBytes : Nat
  inlineTruncated : Bool
  streamError : Option String
  limitations : List String
deriving DecidableEq

def initialSinkState : SinkState :=
  { totalReceivedBytes := 0, fileChunks := [], fileBytesWritten := 0,
    snapshotTruncated := false, inlineChunks := [], inlineBytes := 0,
    inlineTruncated := false, streamError := none, limitations := [] }

/-- The `onChunk` handler (heap-handler.ts lines 1376-1413). -/
def sinkOnChunk (cfg : SinkCfg) (st : SinkState) (c : Chunk) : SinkState :=
  if c.isEmpty then st
  else
    let chunkBytes := chunkByteLength c
    let total := st.totalReceivedBytes + chunkBytes
    if st.snapshotTruncated = false ∧ st.streamError.isSome then
      -- write failure observed: stop writing, record a limitation, and
      -- return early (the inline section is skipped for this chunk)
      { st with totalReceivedBytes := total, snapshotTruncated := true,
                limitations := st.limitations ++
                  ["heap snapshot write failed; writing and parsing stopped"] }
    else
      let st1 :=
        if st.snapshotTruncated = false then
          if total > cfg.maxSnapshotBytes then
            { st with totalReceivedBytes := total, snapshotTruncated := true,
                      limitations := st.limitations ++
                        ["raw heap snapshot exceeded maxSnapshotBytes (" ++
                         toString cfg.maxSnapshotBytes ++
                         ") and was truncated; parsing skipped"] }
          else
            { st with totalReceivedBytes := total,
                      fileChunks := st.fileChunks ++ [c],
                      fileBytesWritten := st.fileBytesWritten + chunkBytes }
        else
          { st with totalReceivedBytes := total }
      if cfg.shouldReturnInline = true ∧ st1.inlineTruncated = false ∧
          st1.inlineBytes < cfg.maxInlineBytes then
        let remaining := cfg.maxInlineBytes - st1.inlineBytes
        let sliced := if remaining < c.length then c.take remaining else c
        { st1 with inlineChunks := st1.inlineChunks ++ [sliced],
                   inlineBytes := st1.inlineBytes + chunkByteLength sliced,
                   inlineTruncated :=
                     if remaining < c.length then true else st1.inlineTruncated }
      else if cfg.shouldReturnInline = true ∧ cfg.maxInlineBytes ≤ st1.inlineBytes then
        { st1 with inlineTruncated := true }
      else
        st1

/-- One event delivered to the sink: either a snapshot chunk
(`HeapProfiler.addHeapSnapshotChunk`) or the write stream reporting an
I/O error (`stream.on('error', ...)`). -/
inductive SinkEvent where
  | chunk (c : Chunk)
  | ioError (msg : String)
deriving DecidableEq

def sinkStep (cfg : SinkCfg) (st : SinkState) (e : SinkEvent) : SinkState :=
  match e with
  | .chunk c => sinkOnChunk cfg st c
  | .ioError msg => { st with streamError := some msg }

def runSink (cfg : SinkCfg) (events : List SinkEvent) : SinkState :=
  events.foldl (sinkStep cfg) initialSinkState

/-- The bytes of the inline payload (`inlineChunks.join('')`). -/
def sinkInlinePayloadBytes (st : SinkState) : Nat := chunkByteLength st.inlineChunks.flatten

/-- The bytes of the file content written through the stream. -/
def sinkFileContentBytes (st : SinkState) : Nat := chunkByteLength st.fileChunks.flatten

/-- File-side accounting invariant of the sink: while not truncated the
file has received every byte and stays within budget; the written byte
counter never exceeds the budget and matches the written content. -/
def SinkFileInv (cfg : SinkCfg) (st : SinkState) : Prop :=
  (st.snapshotTruncated = false →
    st.fileBytesWritten = st.totalReceivedBytes ∧
    st.totalReceivedBytes ≤ cfg.maxSnapshotBytes) ∧
  st.fileBytesWritten ≤ cfg.maxSnapshotBytes ∧
  sinkFileContentBytes st = st.fileBytesWritten

/-- Inline-side accounting invariant of the sink, for runs with inline
output requested, no write error, and single-byte chunks. -/
def SinkInlineInv (cfg : SinkCfg) (st : SinkState) : Prop :=
  st.streamError = none ∧
  st.inlineBytes ≤ cfg.maxInlineBytes ∧
  (st.inlineTruncated = false →
    st.inlineBytes = st.totalReceivedBytes ∧
    st.totalReceivedBytes ≤ cfg.maxInlineBytes) ∧
  sinkInlinePayloadBytes st = st.inlineBytes

/-! ## Parse gate

The parse decision taken by `getHeapSnapshot` (heap-handler.ts lines
659-692) and `trackAllocations` (lines 885-914): throw the recorded stream
error (caught below and turned into a limitation), skip when the sink
truncated the file, skip when the on-disk size exceeds `maxParseBytes`,
otherwise read the file and attempt a parse. -/

structure GateInput where
  streamError : Option String
  snapshotTruncated : Bool
  fileSize : Nat
  maxParseBytes : Nat
deriving DecidableEq

inductive ParseDecision where
  | skippedWriteError (msg : String)
  | skippedTruncated
  | skippedTooLarge
  | attempted
deriving DecidableEq

def parseGateDecision (g : GateInput) : ParseDecision :=
  match g.streamError with
  | some msg => .skippedWriteError msg
  | none =>
    if g.snapshotTruncated = true then .skippedTruncated
    else if g.maxParseBytes < g.fileSize then .skippedTooLarge
    else .attempted

/-! ## JavaScript array and string helpers -/

/-- `Array.prototype.indexOf`: first index of `s`, or `-1`. -/
def jsIndexOf : List String → String → Int
  | [], _ => -1
  | x :: xs, s =>
    if x = s then 0
    else
      let r := jsIndexOf xs s
      if r < 0 then -1 else r + 1

/-- `arr[i]` for a possibly negative or out-of-range numeric index
(JavaScript yields `undefined` outside the array). -/
def listGetInt? {α : Type} (l : List α) (i : Int) : Option α :=
  if h : 0 ≤ i ∧ i.toNat < l.length then some (l.get ⟨i.toNat, h.2⟩) else none

/-! ## Stable sorting

`Array.prototype.sort` with comparators `(a, b) => b.key - a.key`
(descending) and `(a, b) => a.key - b.key` (ascending) is a stable sort;
the unique stable result is computed by insertion sort that keeps earlier
elements first among ties. -/

def insertDescBy {α : Type} (key : α → Int) (x : α) : List α → List α
  | [] => [x]
  | y :: ys => if key y ≤ key x then x :: y :: ys else y :: insertDescBy key x ys

def sortByDesc {α : Type} (key : α → Int) : List α → List α
  | [] => []
  | x :: xs => insertDescBy key x (sortByDesc key xs)

def insertAscBy {α : Type} (key : α → Int) (x : α) : List α → List α
  | [] => [x]
  | y :: ys => if key x ≤ key y then x :: y :: ys else y :: insertAscBy key x ys

def sortByAsc {α : Type} (key : α → Int) : List α → List α
  | [] => []
  | x :: xs => insertAscBy key x (sortByAsc key xs)

/-! ## Object-graph decoder (`HeapHandler.parseV8HeapSnapshot`)

The input document is the result of `JSON.parse` on the captured text,
restricted to the fields the decoder reads. -/

structure HeapMeta where
  node_fields : List String
  /-- `meta.node_types`: a list whose entries may or may not be string
  arrays (`Array.isArray(nodeTypes?.[idxType])`). -/
  node_types : List (Option (List String))
deriving DecidableEq

structure HeapSnapshotHeader where
  meta : Option HeapMeta
  node_count : Option Int
deriving DecidableEq

structure HeapDoc where
  snapshot : Option HeapSnapshotHeader
  nodes : Option (List Int)
  strings : Option (List String)
deriving DecidableEq

structure HeapNodeRec where
  id : Option Int
  name : String
  type : Option String
  selfSizeBytes : Int
deriving DecidableEq

structure ConstructorAgg where
  name : String
  count : Nat
  selfSizeBytes : Int
deriving DecidableEq

structure ParsedHeap where
  totalNodes : Int
  totalSizeBytes : Int
  topConstructors : List ConstructorAgg
  topNodes : List HeapNodeRec
deriving DecidableEq

/-- Decode the `i`-th fixed-width node record of the flat `nodes` sequence
(heap-handler.ts lines 1084-1102): `name` resolved through the string table
with the raw index as text as fallback, `self_size` defaulting to 0, `type`
resolved through the type enumeration when one exists, `id` only when an
`id` field is declared. An access past the end of `nodes` yields JavaScript
`undefined`, so the name falls back to the text "undefined". -/
def decodeHeapNode (nodesArr : List Int) (strings : List String)
    (typeEnum : Option (List String)) (fieldCount : Nat)
    (idxType idxName idxId idxSelfSize : Int) (i : Nat) : HeapNodeRec :=
  let base := i * fieldCount
  let nameIndex : Option Int := nodesArr.get? (base + idxName.toNat)
  let name :=
    match nameIndex with
    | some ix => (listGetInt? strings ix).getD (toString ix)
    | none => "undefined"
  let selfSize := (nodesArr.get? (base + idxSelfSize.toNat)).getD 0
  let typeValue : Option Int := nodesArr.get? (base + idxType.toNat)
  let type : Option String :=
    match typeEnum with
    | some enum =>
      match typeValue with
      | some tv => listGetInt? enum tv
      | none => none
    | none =>
      some (match typeValue with | some tv => toString tv | none => "undefined")
  let id : Option Int :=
    if 0 ≤ idxId then nodesArr.get? (base + idxId.toNat) else none
  { id := id, name := name, type := type, selfSizeBytes := selfSize }

/-- Update the per-name bucket map (a JavaScript `Map`, which preserves
first-insertion order). -/
def bumpConstructor : List ConstructorAgg → String → Int → List ConstructorAgg
  | [], name, size => [{ name := name, count := 1, selfSizeBytes := size }]
  | a :: rest, name, size =>
    if a.name = name then
      { name := a.name, count := a.count + 1, selfSizeBytes := a.selfSizeBytes + size } :: rest
    else
      a :: bumpConstructor rest name size

/-- The accumulation step of the record loop (heap-handler.ts lines
1084-1103): running self-size total, per-name buckets, node list. -/
def heapLoopStep (nodesArr : List Int) (strings : List String)
    (typeEnum : Option (List String)) (fieldCount : Nat)
    (idxType idxName idxId idxSelfSize : Int)
    (acc : Int × List ConstructorAgg × List HeapNodeRec) (i : Nat) :
    Int × List ConstructorAgg × List HeapNodeRec :=
  let r := decodeHeapNode nodesArr strings typeEnum fieldCount idxType idxName idxId idxSelfSize i
  (acc.1 + r.selfSizeBytes, bumpConstructor acc.2.1 r.name r.selfSizeBytes, acc.2.2 ++ [r])

/-- `HeapHandler.parseV8HeapSnapshot` (heap-handler.ts lines 1037-1120). -/
def parseV8HeapSnapshot (d : HeapDoc) (topN : Nat) : Except String ParsedHeap :=
  match d.snapshot, d.nodes, d.strings with
  | some snap, some nodesArr, some strings =>
    match snap.meta with
    | none => .error "invalid heap snapshot structure"
    | some meta =>
      let nodeFields := meta.node_fields
      let fieldCount := nodeFields.length
      let idxType := jsIndexOf nodeFields "type"
      let idxName := jsIndexOf nodeFields "name"
      let idxId := jsIndexOf nodeFields "id"
      let idxSelfSize := jsIndexOf nodeFields "self_size"
      if idxType < 0 ∨ idxName < 0 ∨ idxSelfSize < 0 then
        .error "heap snapshot meta missing required node_fields"
      else
        let typeEnum : Option (List String) :=
          (listGetInt? meta.node_types idxType).bind id
        let nodeCount : Int :=
          match snap.node_count with
          | some n => n
          | none => Int.ofNat (nodesArr.length / fieldCount)
        let acc := (List.range nodeCount.toNat).foldl
          (heapLoopStep nodesArr strings typeEnum fieldCount idxType idxName idxId idxSelfSize)
          (0, [], [])
        let topConstructors := (sortByDesc (fun a => a.selfSizeBytes) acc.2.1).take topN
        let topNodes := (sortByDesc (fun a => a.selfSizeBytes) acc.2.2).take topN
        .ok { totalNodes := nodeCount, totalSizeBytes := acc.1,
              topConstructors := topConstructors, topNodes := topNodes }
  | _, _, _ => .error "invalid heap snapshot structure"

/-! ## Orchestrator parse phase (`getHeapSnapshot`, lines 652-692)

What `getHeapSnapshot` does between sink finalization and result assembly:
apply the parse gate, attempt the parse when the gate allows, and convert
any failure into a limitation string with `parsed = false` instead of
letting it escape. -/

structure HeapSummaryPhase where
  parsed : Bool
  totalNodes : Option Int
  totalSizeBytes : Option Int
  topConstructors : Option (List ConstructorAgg)
  topNodes : Option (List HeapNodeRec)
  newLimitations : List String
deriving DecidableEq

def getHeapSnapshotParsePhase (g : GateInput) (d : HeapDoc) (topN : Nat) :
    HeapSummaryPhase :=
  match parseGateDecision g with
  | .skippedWriteError msg =>
    { parsed := false, totalNodes := none, totalSizeBytes := none,
      topConstructors := none, topNodes := none,
      newLimitations := ["failed to parse heap snapshot: " ++ msg] }
  | .skippedTruncated =>
    -- the limitation was already recorded by the sink when it truncated
    { parsed := false, totalNodes := none, totalSizeBytes := none,
      topConstructors := none, topNodes := none, newLimitations := [] }
  | .skippedTooLarge =>
    { parsed := false, totalNodes := none, totalSizeBytes := none,
      topConstructors := none, topNodes := none,
      newLimitations := ["raw heap snapshot size (" ++ toString g.fileSize ++
        ") exceeded maxParseBytes (" ++ toString g.maxParseBytes ++
        "); parsing skipped"] }
  | .attempted =>
    match parseV8HeapSnapshot d topN with
    | .ok r =>
      { parsed := true, totalNodes := some r.totalNodes,
        totalSizeBytes := some r.totalSizeBytes,
        topConstructors := some r.topConstructors,
        topNodes := some r.topNodes, newLimitations := [] }
    | .error msg =>
      { parsed := false, totalNodes := none, totalSizeBytes := none,
        topConstructors := none, topNodes := none,
        newLimitations := ["failed to parse heap snapshot: " ++ msg] }

/-- The request outcome as seen by the tool-call layer: failures of the
capture itself (sink acquisition, stream finalization) propagate as an
error result, while everything after a successful capture — in particular
a decode failure — still yields a success result. -/
def getHeapSnapshotRequestOutcome (capture : Except String GateInput)
    (d : HeapDoc) (topN : Nat) : Except String HeapSummaryPhase :=
  match capture with
  | .error e => .error e
  | .ok g => .ok (getHeapSnapshotParsePhase g d topN)

/-! ## Allocation-trace decoder (`HeapHandler.parseV8HeapSnapshotAllocationTrace`)

Input: the `JSON.parse` result of a heap snapshot taken while allocation
tracking was on, restricted to the fields the decoder reads
(heap-handler.ts lines 1122-1299). -/

structure TraceMeta where
  trace_node_fields : Option (List String)
  trace_function_info_fields : Option (List String)
deriving DecidableEq

structure TraceHeader where
  meta : Option TraceMeta
deriving DecidableEq

structure TraceDoc where
  snapshot : Option TraceHeader
  strings : Option (List String)
  trace_tree : Option (List Int)
  trace_function_infos : Option (List Int)
deriving DecidableEq

structure TopStack where
  stackTrace : List String
  sizeBytes : Int
  count : Int
deriving DecidableEq

structure AllocationTrackingSummary where
  parsed : Bool
  totalAllocatedBytes : Option Int
  totalCount : Option Int
  topStacks : Option (List TopStack)
deriving DecidableEq

/-- Field-index resolution with recognized aliases (heap-handler.ts lines
1165-1176). -/
def traceIdxFnInfo (nf : List String) : Int :=
  if 0 ≤ jsIndexOf nf "function_info_index" then jsIndexOf nf "function_info_index"
  else jsIndexOf nf "functionInfoIndex"

def traceIdxCount (nf : List String) : Int := jsIndexOf nf "count"

def traceIdxSize (nf : List String) : Int :=
  if 0 ≤ jsIndexOf nf "size" then jsIndexOf nf "size" else jsIndexOf nf "size_bytes"

def traceIdxChildren (nf : List String) : Int :=
  if 0 ≤ jsIndexOf nf "children" then jsIndexOf nf "children"
  else if 0 ≤ jsIndexOf nf "children_count" then jsIndexOf nf "children_count"
  else jsIndexOf nf "childrenCount"

/-- Everything the trace walk reads, resolved once after the structural
guards. -/
structure TraceCtx where
  fieldCount : Nat
  fnFieldCount : Nat
  idxFnInfo : Int
  idxCount : Int
  idxSize : Int
  idxChildren : Int
  fnIdxName : Int
  fnIdxScriptName : Int
  fnIdxLine : Int
  fnIdxColumn : Int
  stringTable : List String
  fnInfoRaw : List Int
  traceArr : List Int
deriving DecidableEq

def buildTraceCtx (nodeFields fnFields : List String) (strings : List String)
    (fnInfos traceArr : List Int) : TraceCtx :=
  { fieldCount := nodeFields.length, fnFieldCount := fnFields.length,
    idxFnInfo := traceIdxFnInfo nodeFields, idxCount := traceIdxCount nodeFields,
    idxSize := traceIdxSize nodeFields, idxChildren := traceIdxChildren nodeFields,
    fnIdxName := jsIndexOf fnFields "name",
    fnIdxScriptName :=
      if 0 ≤ jsIndexOf fnFields "script_name" then jsIndexOf fnFields "script_name"
      else jsIndexOf fnFields "scriptName",
    fnIdxLine := jsIndexOf fnFields "line", fnIdxColumn := jsIndexOf fnFields "column",
    stringTable := strings, fnInfoRaw := fnInfos, traceArr := traceArr }

/-- The frame-label resolver `getFnLabel` (heap-handler.ts lines
1194-1215): `"name (script:line:column)"` when a non-empty script name is
known, else just the name; any unresolvable index yields the synthetic
placeholder `fn#<index>`. -/
def getFnLabel (ctx : TraceCtx) (functionInfoIndex : Int) : String :=
  if functionInfoIndex < 0 then "fn#" ++ toString functionInfoIndex
  else
    let base := functionInfoIndex.toNat * ctx.fnFieldCount
    if ctx.fnInfoRaw.length < base + ctx.fnFieldCount then
      "fn#" ++ toString functionInfoIndex
    else
      let nameIndex : Option Int :=
        if 0 ≤ ctx.fnIdxName then ctx.fnInfoRaw.get? (base + ctx.fnIdxName.toNat) else none
      let scriptNameIndex : Option Int :=
        if 0 ≤ ctx.fnIdxScriptName then ctx.fnInfoRaw.get? (base + ctx.fnIdxScriptName.toNat)
        else none
      let line : Option Int :=
        if 0 ≤ ctx.fnIdxLine then ctx.fnInfoRaw.get? (base + ctx.fnIdxLine.toNat) else none
      let column : Option Int :=
        if 0 ≤ ctx.fnIdxColumn then ctx.fnInfoRaw.get? (base + ctx.fnIdxColumn.toNat) else none
      let name :=
        match nameIndex with
        | some ix => (listGetInt? ctx.stringTable ix).getD ("fn#" ++ toString functionInfoIndex)
        | none => "fn#" ++ toString functionInfoIndex
      let scriptName : Option String :=
        match scriptNameIndex with
        | some ix => listGetInt? ctx.stringTable ix
        | none => none
      match scriptName with
      | some s =>
        if s.isEmpty then name
        else
          name ++ " (" ++ s ++ ":" ++ (match line with | some v => toString v | none => "0")
            ++ ":" ++ (match column with | some v => toString v | none => "0") ++ ")"
      | none => name

/-- The declared child count of the record starting at `cursor` (the
`children` field, falling back to the last field when no recognized alias
was declared; heap-handler.ts lines 1245-1248). -/
def traceChildrenAt (ctx : TraceCtx) (cursor : Nat) : Int :=
  if 0 ≤ ctx.idxChildren then (ctx.traceArr.get? (cursor + ctx.idxChildren.toNat)).getD 0
  else (ctx.traceArr.get? (cursor + (ctx.fieldCount - 1))).getD 0

structure TraceNode where
  fnLabel : String
  count : Int
  sizeBytes : Int
  children : Int
deriving DecidableEq

/-- Decode the trace-tree record starting at flat offset `cursor`
(`readNode` without its bounds check, which the walk performs;
heap-handler.ts lines 1234-1256). -/
def decodeTraceNodeAt (ctx : TraceCtx) (cursor : Nat) : TraceNode :=
  { fnLabel := getFnLabel ctx ((ctx.traceArr.get? (cursor + ctx.idxFnInfo.toNat)).getD 0),
    count := (ctx.traceArr.get? (cursor + ctx.idxCount.toNat)).getD 0,
    sizeBytes := (ctx.traceArr.get? (cursor + ctx.idxSize.toNat)).getD 0,
    children := traceChildrenAt ctx cursor }

/-- The bounded top-N structure `pushTop` (heap-handler.ts lines
1218-1228): `top` is kept sorted ascending by `sizeBytes`; a full structure
replaces its minimum only when the candidate is strictly larger. -/
def pushTop (topN : Nat) (top : List TopStack) (item : TopStack) : List TopStack :=
  if topN = 0 then top
  else if top.length < topN then sortByAsc (fun s => s.sizeBytes) (top ++ [item])
  else
    match top with
    | [] => []
    | t0 :: rest =>
      if item.sizeBytes ≤ t0.sizeBytes then t0 :: rest
      else sortByAsc (fun s => s.sizeBytes) (item :: rest)

/-- The explicit-stack depth-first walk over the pre-order-encoded
`trace_tree` (heap-handler.ts lines 1267-1289). `callStack` holds the frame
labels of the current path, root first; `childStack` holds the matching
not-yet-consumed child counts, innermost first. Reading past the end of the
flat array is the `trace_tree truncated` error. A leaf with positive size
is recorded with stack `proj callStack`; the decoder uses
`proj = List.drop 1` (`callStack.slice(1)`, dropping the synthetic root),
and `proj = id` gives the root-inclusive full paths used to state that
reported stacks exclude the root. -/
def traceWalkAux (ctx : TraceCtx) (proj : List String → List String) (topN : Nat) :
    Nat → Nat → List String → List Int → List TopStack → Except String (List TopStack)
  | 0, _, _, _, _ => .error "trace walk out of fuel"
  | fuel + 1, cursor, callStack, childStack, top =>
    match childStack with
    | [] => .ok top
    | remaining :: restChild =>
      if remaining ≤ 0 then
        match restChild with
        | [] => traceWalkAux ctx proj topN fuel cursor callStack.dropLast [] top
        | r2 :: rest2 =>
          traceWalkAux ctx proj topN fuel cursor callStack.dropLast ((r2 - 1) :: rest2) top
      else
        if cursor + ctx.fieldCount ≤ ctx.traceArr.length then
          -- read one record; its label joins the path, its child count is
          -- pushed; a non-root leaf with positive size is recorded
          traceWalkAux ctx proj topN fuel (cursor + ctx.fieldCount)
            (callStack ++ [(decodeTraceNodeAt ctx cursor).fnLabel])
            ((decodeTraceNodeAt ctx cursor).children :: remaining :: restChild)
            (if ¬(callStack ++ [(decodeTraceNodeAt ctx cursor).fnLabel]).length ≤ 1 ∧
                (decodeTraceNodeAt ctx cursor).children ≤ 0 ∧
                0 < (decodeTraceNodeAt ctx cursor).sizeBytes then
              pushTop topN top
                { stackTrace := proj (callStack ++ [(decodeTraceNodeAt ctx cursor).fnLabel]),
                  sizeBytes := (decodeTraceNodeAt ctx cursor).sizeBytes,
                  count := (decodeTraceNodeAt ctx cursor).count }
            else top)
        else
          .error "trace_tree truncated"

/-- Fuel for the walk over a trace array of length `len`: the loop performs
at most `len` record reads (each advances the cursor by at least one) and
at most one more pop than reads, so `2 * len + 2` steps are never
exhausted; exhaustion is modelled as a distinct error that the decoder
never encounters. -/
def traceWalkFuel (len : Nat) : Nat := 2 * len + 2

/-- Control-flow skeleton of the same walk, keeping only the cursor and the
pending child counts: `true` exactly when the depth-first walk needs to
read a record starting past the end of the flat `trace_tree` array. This is
the specification-side notion "the declared child counts overrun the
available record sequence". -/
def traceWalkOverruns (ctx : TraceCtx) :
    Nat → Nat → List Int → Bool
  | 0, _, _ => false
  | fuel + 1, cursor, childStack =>
    match childStack with
    | [] => false
    | remaining :: restChild =>
      if remaining ≤ 0 then
        match restChild with
        | [] => traceWalkOverruns ctx fuel cursor []
        | r2 :: rest2 => traceWalkOverruns ctx fuel cursor ((r2 - 1) :: rest2)
      else
        if cursor + ctx.fieldCount ≤ ctx.traceArr.length then
          traceWalkOverruns ctx fuel (cursor + ctx.fieldCount)
            (traceChildrenAt ctx cursor :: remaining :: restChild)
        else
          true

/-- `HeapHandler.parseV8HeapSnapshotAllocationTrace` (heap-handler.ts lines
1122-1299): structural guards, field-index resolution, one root record read
(whose size and count become the reported totals), the depth-first walk,
and final descending sort of the collected stacks. Fields that are 0 or
empty are reported as `undefined` (here `none`). -/
def parseV8HeapSnapshotAllocationTrace (d : TraceDoc) (topN : Nat) :
    Except String AllocationTrackingSummary :=
  match d.snapshot.bind (fun s => s.meta), d.strings, d.trace_tree, d.trace_function_infos with
  | some meta, some strings, some traceTree, some traceFunctionInfos =>
    match meta.trace_node_fields, meta.trace_function_info_fields with
    | some nodeFields, some fnFields =>
      if nodeFields.length = 0 ∨ fnFields.length = 0 then
        .error "invalid trace meta field count"
      else
        if traceIdxFnInfo nodeFields < 0 ∨ traceIdxCount nodeFields < 0 ∨
            traceIdxSize nodeFields < 0 then
          .error "trace_node_fields missing required fields"
        else
          let ctx := buildTraceCtx nodeFields fnFields strings traceFunctionInfos traceTree
          if ctx.fieldCount ≤ ctx.traceArr.length then
            let root := decodeTraceNodeAt ctx 0
            match traceWalkAux ctx (fun l => l.drop 1) topN
                (traceWalkFuel ctx.traceArr.length) ctx.fieldCount
                [root.fnLabel] [root.children] [] with
            | .error e => .error e
            | .ok rawTop =>
              let topStacks := sortByDesc (fun s => s.sizeBytes) rawTop
              .ok { parsed := true,
                    totalAllocatedBytes := if 0 < root.sizeBytes then some root.sizeBytes else none,
                    totalCount := if 0 < root.count then some root.count else none,
                    topStacks := if topStacks.length ≠ 0 then some topStacks else none }
          else
            .error "trace_tree truncated"
    | _, _ => .error "heap snapshot meta missing trace_node_fields/trace_function_info_fields"
  | _, _, _, _ => .error "heap snapshot missing trace_tree/trace_function_infos"

/-- Modelled for comparison with the decoder: the same pipeline but keeping
the root-inclusive full frame path of every recorded stack (`proj = id`
instead of `callStack.slice(1)`), with the same final descending sort.
Used only to state that every stack the decoder reports is a root-headed
full path with the synthetic root frame removed. -/
def traceGhostTopStacks (d : TraceDoc) (topN : Nat) :
    Except String (List TopStack) :=
  match d.snapshot.bind (fun s => s.meta), d.strings, d.trace_tree, d.trace_function_infos with
  | some meta, some strings, some traceTree, some traceFunctionInfos =>
    match meta.trace_node_fields, meta.trace_function_info_fields with
    | some nodeFields, some fnFields =>
      if nodeFields.length = 0 ∨ fnFields.length = 0 then
        .error "invalid trace meta field count"
      else
        if traceIdxFnInfo nodeFields < 0 ∨ traceIdxCount nodeFields < 0 ∨
            traceIdxSize nodeFields < 0 then
          .error "trace_node_fields missing required fields"
        else
          let ctx := buildTraceCtx nodeFields fnFields strings traceFunctionInfos traceTree
          if ctx.fieldCount ≤ ctx.traceArr.length then
            let root := decodeTraceNodeAt ctx 0
            match traceWalkAux ctx id topN
                (traceWalkFuel ctx.traceArr.length) ctx.fieldCount
                [root.fnLabel] [root.children] [] with
            | .error e => .error e
            | .ok rawTop => .ok (sortByDesc (fun s => s.sizeBytes) rawTop)
          else
            .error "trace_tree truncated"
    | _, _ => .error "heap snapshot meta missing trace_node_fields/trace_function_info_fields"
  | _, _, _, _ => .error "heap snapshot missing trace_tree/trace_function_infos"

/-- The root-record overrun test at document level: the root read itself
overruns when the flat array holds less than one record; otherwise the walk
skeleton decides. -/
def traceDocOverruns (d : TraceDoc) : Bool :=
  match d.snapshot.bind (fun s => s.meta), d.strings, d.trace_tree, d.trace_function_infos with
  | some meta, some strings, some traceTree, some traceFunctionInfos =>
    match meta.trace_node_fields, meta.trace_function_info_fields with
    | some nodeFields, some fnFields =>
      if nodeFields.length = 0 ∨ fnFields.length = 0 then false
      else
        if traceIdxFnInfo nodeFields < 0 ∨ traceIdxCount nodeFields < 0 ∨
            traceIdxSize nodeFields < 0 then false
        else
          let ctx := buildTraceCtx nodeFields fnFields strings traceFunctionInfos traceTree
          if ctx.fieldCount ≤ ctx.traceArr.length then
            traceWalkOverruns ctx (traceWalkFuel ctx.traceArr.length) ctx.fieldCount
              [traceChildrenAt ctx 0]
          else
            true
    | _, _ => false
  | _, _, _, _ => false

/-- The list of reported stacks of a summary (`summary.topStacks ?? []`). -/
def topStacksList (r : AllocationTrackingSummary) : List TopStack :=
  r.topStacks.getD []

/-- Remove the leading (synthetic root) frame from a recorded stack. -/
def dropRootFrame (it : TopStack) : TopStack :=
  { it with stackTrace := it.stackTrace.drop 1 }

/-- The first (synthetic root) record of the trace tree, as the decoder
decodes it; a zero record when the document does not reach the walk. -/
def traceRootNode (d : TraceDoc) : TraceNode :=
  match d.snapshot.bind (fun s => s.meta), d.strings, d.trace_tree, d.trace_function_infos with
  | some meta, some strings, some traceTree, some traceFunctionInfos =>
    match meta.trace_node_fields, meta.trace_function_info_fields with
    | some nodeFields, some fnFields =>
      decodeTraceNodeAt (buildTraceCtx nodeFields fnFields strings traceFunctionInfos traceTree) 0
    | _, _ => { fnLabel := "", count := 0, sizeBytes := 0, children := 0 }
  | _, _, _, _ => { fnLabel := "", count := 0, sizeBytes := 0, children := 0 }

/-- The frame label of the synthetic root record. -/
def traceRootLabel (d : TraceDoc) : String := (traceRootNode d).fnLabel

/-! ## CDP call sequence of `trackAllocations`

`trackAllocations` (heap-handler.ts lines 820-951) is straight-line
`await` code; its interactions with the protocol collaborator, in program
order. -/

inductive CdpCall where
  | heapProfilerEnable
  | collectGarbage
  | evaluateUsedBytes
  | startTrackingHeapObjects
  | sleepForDuration
  | takeHeapSnapshot
  | stopTrackingHeapObjects
  | detachSession
deriving DecidableEq

/-- The calls issued by one `trackAllocations` request, in order: enable
the profiler, optionally force GC, read `performance.memory`, start
tracking, wait `durationMs`, run the capture-and-stream cycle
(`captureHeapSnapshotRaw`, whose protocol interaction is
`HeapProfiler.takeHeapSnapshot`), stop tracking, read `performance.memory`
again, detach. -/
def trackAllocationsCdpSequence (collectGarbage : Bool) : List CdpCall :=
  [.heapProfilerEnable] ++
  (if collectGarbage then [.collectGarbage] else []) ++
  [.evaluateUsedBytes, .startTrackingHeapObjects, .sleepForDuration,
   .takeHeapSnapshot, .stopTrackingHeapObjects, .evaluateUsedBytes,
   .detachSession]

/-- First index of a call in the sequence (`-1` when absent). -/
def cdpIndexOf : List CdpCall → CdpCall → Int
  | [], _ => -1
  | x :: xs, s =>
    if x = s then 0
    else
      let r := cdpIndexOf xs s
      if r < 0 then -1 else r + 1

/-! ## Concrete scenario documents (spec section 8) -/

/-- Scenario A metadata: node fields type, name, id, self_size with a type
enumeration for the type field. -/
def scenarioHeapMeta : HeapMeta :=
  { node_fields := ["type", "name", "id", "self_size"]
    node_types := [some ["object"], none, none, none] }

/-- Scenario A: three nodes, two named Foo (self-size 1000 and 2000) and
one named Bar (self-size 5000). -/
def scenarioHeapDoc : HeapDoc :=
  { snapshot := some { meta := some scenarioHeapMeta, node_count := some 3 }
    nodes := some [0, 0, 1, 1000, 0, 0, 2, 2000, 0, 1, 3, 5000]
    strings := some ["Foo", "Bar"] }

def scenarioHeapExpected : ParsedHeap :=
  { totalNodes := 3
    totalSizeBytes := 8000
    topConstructors := [{ name := "Bar", count := 1, selfSizeBytes := 5000 },
                        { name := "Foo", count := 2, selfSizeBytes := 3000 }]
    topNodes := [{ id := some 3, name := "Bar", type := some "object", selfSizeBytes := 5000 },
                 { id := some 2, name := "Foo", type := some "object", selfSizeBytes := 2000 },
                 { id := some 1, name := "Foo", type := some "object", selfSizeBytes := 1000 }] }

/-- A document whose metadata lacks the `self_size` node-field index. -/
def missingSelfSizeHeapMeta : HeapMeta :=
  { node_fields := ["type", "name", "id"]
    node_types := [some ["object"], none, none] }

def missingSelfSizeHeapDoc : HeapDoc :=
  { snapshot := some { meta := some missingSelfSizeHeapMeta, node_count := some 1 }
    nodes := some [0, 0, 1]
    strings := some ["Foo"] }

/-- A document with one real record but a declared node count of 4. -/
def overdeclaredHeapMeta : HeapMeta :=
  { node_fields := ["type", "name", "self_size"]
    node_types := [some ["object"], none, none] }

def overdeclaredHeapDoc : HeapDoc :=
  { snapshot := some { meta := some overdeclaredHeapMeta, node_count := some 4 }
    nodes := some [0, 0, 1000]
    strings := some ["Foo"] }

/-- Scenario B metadata. -/
def scenarioTraceMeta : TraceMeta :=
  { trace_node_fields := some ["function_info_index", "count", "size", "children"]
    trace_function_info_fields := some ["name", "script_name", "line", "column"] }

/-- Scenario B: allocation tree root(size 600, count 3, 1 child) → foo
(600, 3, 1 child) → bar (500, 2, leaf). The root's function descriptor
points its script name past the string table, so its label is the bare
name. -/
def scenarioTraceDoc : TraceDoc :=
  { snapshot := some { meta := some scenarioTraceMeta }
    strings := some ["(root)", "foo", "bar", "app.js"]
    trace_tree := some [0, 3, 600, 1, 1, 3, 600, 1, 2, 2, 500, 0]
    trace_function_infos := some [0, 100, 0, 0, 1, 3, 1, 1, 2, 3, 2, 2] }

def scenarioTraceExpected : AllocationTrackingSummary :=
  { parsed := true
    totalAllocatedBytes := some 600
    totalCount := some 3
    topStacks := some [{ stackTrace := ["foo (app.js:1:1)", "bar (app.js:2:2)"],
                         sizeBytes := 500, count := 2 }] }

/-- A trace document whose root declares 2 children but whose flat array
holds only 2 records: the walk must read a third record past the end. -/
def overrunTraceDoc : TraceDoc :=
  { snapshot := some { meta := some scenarioTraceMeta }
    strings := some ["(root)"]
    trace_tree := some [0, 3, 600, 2, 0, 1, 100, 0]
    trace_function_infos := some [0, 100, 0, 0] }

/-! ## Helper lemmas: stable sorting -/

theorem mem_insertDescBy {α : Type} (key : α → Int) (x a : α) (l : List α) :
    a ∈ insertDescBy key x l ↔ a = x ∨ a ∈ l := by
  induction l with
  | nil => simp [insertDescBy]
  | cons y ys ih =>
    simp only [insertDescBy]
    split
    · simp [or_comm, or_assoc, or_left_comm]
    · simp [ih]
      tauto

theorem length_insertDescBy {α : Type} (key : α → Int) (x : α) (l : List α) :
    (insertDescBy key x l).length = l.length + 1 := by
  induction l with
  | nil => simp [insertDescBy]
  | cons y ys ih =>
    simp only [insertDescBy]
    split <;> simp [ih]

theorem pairwise_insertDescBy {α : Type} (key : α → Int) (x : α) (l : List α)
    (h : l.Pairwise (fun a b => key b ≤ key a)) :
    (insertDescBy key x l).Pairwise (fun a b => key b ≤ key a) := by
  induction l with
  | nil => simp [insertDescBy]
  | cons y ys ih =>
    simp only [insertDescBy]
    rcases List.pairwise_cons.mp h with ⟨hy, hys⟩
    split
    · refine List.pairwise_cons.mpr ⟨?_, h⟩
      intro z hz
      rcases List.mem_cons.mp hz with rfl | hz
      · omega
      · have := hy z hz
        omega
    · refine List.pairwise_cons.mpr ⟨?_, ih hys⟩
      intro z hz
      rcases (mem_insertDescBy key x z ys).mp hz with rfl | hz
      · omega
      · exact hy z hz

theorem mem_sortByDesc {α : Type} (key : α → Int) (a : α) (l : List α) :
    a ∈ sortByDesc key l ↔ a ∈ l := by
  induction l with
  | nil => simp [sortByDesc]
  | cons y ys ih => simp [sortByDesc, mem_insertDescBy, ih]

theorem length_sortByDesc {α : Type} (key : α → Int) (l : List α) :
    (sortByDesc key l).length = l.length := by
  induction l with
  | nil => simp [sortByDesc]
  | cons y ys ih => simp [sortByDesc, length_insertDescBy, ih]

theorem pairwise_sortByDesc {α : Type} (key : α → Int) (l : List α) :
    (sortByDesc key l).Pairwise (fun a b => key b ≤ key a) := by
  induction l with
  | nil => simp [sortByDesc]
  | cons y ys ih => exact pairwise_insertDescBy key y _ ih

theorem insertDescBy_map {α : Type} (key : α → Int) (F : α → α)
    (hk : ∀ a, key (F a) = key a) (x : α) (l : List α) :
    insertDescBy key (F x) (l.map F) = (insertDescBy key x l).map F := by
  induction l with
  | nil => simp [insertDescBy]
  | cons y ys ih =>
    simp only [List.map_cons, insertDescBy, hk]
    split <;> simp [ih]

theorem sortByDesc_map {α : Type} (key : α → Int) (F : α → α)
    (hk : ∀ a, key (F a) = key a) (l : List α) :
    sortByDesc key (l.map F) = (sortByDesc key l).map F := by
  induction l with
  | nil => simp [sortByDesc]
  | cons y ys ih => simp [sortByDesc, ih, insertDescBy_map key F hk]

theorem mem_insertAscBy {α : Type} (key : α → Int) (x a : α) (l : List α) :
    a ∈ insertAscBy key x l ↔ a = x ∨ a ∈ l := by
  induction l with
  | nil => simp [insertAscBy]
  | cons y ys ih =>
    simp only [insertAscBy]
    split
    · simp [or_comm, or_assoc, or_left_comm]
    · simp [ih]
      tauto

theorem length_insertAscBy {α : Type} (key : α → Int) (x : α) (l : List α) :
    (insertAscBy key x l).length = l.length + 1 := by
  induction l with
  | nil => simp [insertAscBy]
  | cons y ys ih =>
    simp only [insertAscBy]
    split <;> simp [ih]

theorem mem_sortByAsc {α : Type} (key : α → Int) (a : α) (l : List α) :
    a ∈ sortByAsc key l ↔ a ∈ l := by
  induction l with
  | nil => simp [sortByAsc]
  | cons y ys ih => simp [sortByAsc, mem_insertAscBy, ih]

theorem length_sortByAsc {α : Type} (key : α → Int) (l : List α) :
    (sortByAsc key l).length = l.length := by
  induction l with
  | nil => simp [sortByAsc]
  | cons y ys ih => simp [sortByAsc, length_insertAscBy, ih]

theorem insertAscBy_map {α : Type} (key : α → Int) (F : α → α)
    (hk : ∀ a, key (F a) = key a) (x : α) (l : List α) :
    insertAscBy key (F x) (l.map F) = (insertAscBy key x l).map F := by
  induction l with
  | nil => simp [insertAscBy]
  | cons y ys ih =>
    simp only [List.map_cons, insertAscBy, hk]
    split <;> simp [ih]

theorem sortByAsc_map {α : Type} (key : α → Int) (F : α → α)
    (hk : ∀ a, key (F a) = key a) (l : List α) :
    sortByAsc key (l.map F) = (sortByAsc key l).map F := by
  induction l with
  | nil => simp [sortByAsc]
  | cons y ys ih => simp [sortByAsc, ih, insertAscBy_map key F hk]

/-! ## Helper lemmas: the bounded top-N structure -/

theorem pushTop_zero (top : List TopStack) (item : TopStack) :
    pushTop 0 top item = top := by
  simp [pushTop]

theorem pushTop_length (topN : Nat) (top : List TopStack) (item : TopStack)
    (h : top.length ≤ topN) : (pushTop topN top item).length ≤ topN := by
  unfold pushTop
  split
  · omega
  · split
    · rw [length_sortByAsc]
      simp
      omega
    · match top with
      | [] => simpa using h
      | t0 :: rest =>
        simp only
        split
        · simpa using h
        · rw [length_sortByAsc]
          simpa using h

theorem pushTop_mem (topN : Nat) (top : List TopStack) (item a : TopStack)
    (h : a ∈ pushTop topN top item) : a = item ∨ a ∈ top := by
  unfold pushTop at h
  split at h
  · exact Or.inr h
  · split at h
    · rcases (mem_sortByAsc _ a _).mp h with h
      rcases List.mem_append.mp h with h | h
      · exact Or.inr h
      · simp at h
        exact Or.inl h
    · match top with
      | [] => simp at h
      | t0 :: rest =>
        simp only at h
        split at h
        · exact Or.inr h
        · rcases (mem_sortByAsc _ a _).mp h with h
          rcases List.mem_cons.mp h with rfl | h
          · exact Or.inl rfl
          · exact Or.inr (List.mem_cons_of_mem _ h)

theorem pushTop_map (topN : Nat) (F : TopStack → TopStack)
    (hk : ∀ s, (F s).sizeBytes = s.sizeBytes) (top : List TopStack) (item : TopStack) :
    pushTop topN (top.map F) (F item) = (pushTop topN top item).map F := by
  unfold pushTop
  rw [List.length_map]
  split
  · rfl
  · split
    · rw [show top.map F ++ [F item] = (top ++ [item]).map F by simp,
          sortByAsc_map _ F hk]
    · match top with
      | [] => rfl
      | t0 :: rest =>
        simp only [List.map_cons, hk]
        split
        · rfl
        · rw [show F item :: rest.map F = (item :: rest).map F by simp,
              sortByAsc_map _ F hk]

/-! ## Helper lemmas: the depth-first trace walk -/

theorem decodeTraceNodeAt_children (ctx : TraceCtx) (cursor : Nat) :
    (decodeTraceNodeAt ctx cursor).children = traceChildrenAt ctx cursor := rfl

theorem dropLast_head_eq {l : List String} (h : 2 ≤ l.length) :
    l.dropLast.head? = l.head? := by
  match l with
  | [] => simp at h
  | [a] => simp at h
  | a :: b :: t => simp

theorem traceWalkAux_drop_map (ctx : TraceCtx) (topN : Nat) :
    ∀ (fuel cursor : Nat) (callStack : List String) (childStack : List Int)
      (topI : List TopStack),
    traceWalkAux ctx (fun l => l.drop 1) topN fuel cursor callStack childStack
        (topI.map dropRootFrame) =
      (traceWalkAux ctx id topN fuel cursor callStack childStack topI).map
        (List.map dropRootFrame) := by
  intro fuel
  induction fuel with
  | zero => intro cursor callStack childStack topI; rfl
  | succ fuel ih =>
    intro cursor callStack childStack topI
    match childStack with
    | [] => rfl
    | remaining :: restChild =>
      simp only [traceWalkAux]
      by_cases hr : remaining ≤ 0
      · simp only [if_pos hr]
        match restChild with
        | [] => exact ih _ _ _ _
        | r2 :: rest2 => exact ih _ _ _ _
      · simp only [if_neg hr]
        by_cases hb : cursor + ctx.fieldCount ≤ ctx.traceArr.length
        · simp only [if_pos hb]
          by_cases hcond : ¬((callStack ++ [(decodeTraceNodeAt ctx cursor).fnLabel]).length ≤ 1) ∧
              (decodeTraceNodeAt ctx cursor).children ≤ 0 ∧
              0 < (decodeTraceNodeAt ctx cursor).sizeBytes
          · simp only [if_pos hcond]
            have hitem : ({ stackTrace := List.drop 1 (callStack ++ [(decodeTraceNodeAt ctx cursor).fnLabel]), sizeBytes := (decodeTraceNodeAt ctx cursor).sizeBytes, count := (decodeTraceNodeAt ctx cursor).count } : TopStack) = dropRootFrame { stackTrace := id (callStack ++ [(decodeTraceNodeAt ctx cursor).fnLabel]), sizeBytes := (decodeTraceNodeAt ctx cursor).sizeBytes, count := (decodeTraceNodeAt ctx cursor).count } := rfl
            rw [hitem, pushTop_map topN dropRootFrame (fun s => rfl)]
            exact ih _ _ _ _
          · simp only [if_neg hcond]
            exact ih _ _ _ _
        · simp only [if_neg hb]
          rfl

theorem traceWalkAux_head_invariant (ctx : TraceCtx) (topN : Nat) (rl : String) :
    ∀ (fuel cursor : Nat) (callStack : List String) (childStack : List Int)
      (top : List TopStack),
    (callStack = [] ∨ callStack.head? = some rl) →
    callStack.length = childStack.length →
    (∀ it ∈ top, it.stackTrace.head? = some rl) →
    ∀ t, traceWalkAux ctx id topN fuel cursor callStack childStack top = .ok t →
    ∀ it ∈ t, it.stackTrace.head? = some rl := by
  intro fuel
  induction fuel with
  | zero =>
    intro cursor callStack childStack top _ _ _ t hw
    exact absurd hw (by simp [traceWalkAux])
  | succ fuel ih =>
    intro cursor callStack childStack top hhead hlen htop t hw
    match childStack with
    | [] =>
      simp only [traceWalkAux] at hw
      obtain rfl : top = t := by simpa using hw
      exact htop
    | remaining :: restChild =>
      simp only [traceWalkAux] at hw
      by_cases hr : remaining ≤ 0
      · simp only [if_pos hr] at hw
        match restChild, hw with
        | [], hw =>
          refine ih _ _ _ _ (Or.inl ?_) ?_ htop t hw
          · have h1 : callStack.length = 1 := by simpa using hlen
            match callStack, h1 with
            | [a], _ => simp
          · simp at hlen ⊢
            omega
        | r2 :: rest2, hw =>
          have hlen2 : 2 ≤ callStack.length := by
            simp at hlen
            omega
          refine ih _ _ _ _ ?_ ?_ htop t hw
          · rcases hhead with rfl | hhead
            · simp at hlen2
            · exact Or.inr (by rw [dropLast_head_eq hlen2, hhead])
          · simp at hlen ⊢
            omega
      · simp only [if_neg hr] at hw
        by_cases hb : cursor + ctx.fieldCount ≤ ctx.traceArr.length
        · simp only [if_pos hb] at hw
          have hcs : callStack ≠ [] := by
            intro hnil
            rw [hnil] at hlen
            simp at hlen
          have hhead2 : callStack.head? = some rl := by
            rcases hhead with rfl | hhead
            · exact absurd rfl hcs
            · exact hhead
          have hcs2head : (callStack ++ [(decodeTraceNodeAt ctx cursor).fnLabel]).head? = some rl := by
            rw [List.head?_append_of_ne_nil _ hcs]
            exact hhead2
          by_cases hcond : ¬((callStack ++ [(decodeTraceNodeAt ctx cursor).fnLabel]).length ≤ 1) ∧
              (decodeTraceNodeAt ctx cursor).children ≤ 0 ∧
              0 < (decodeTraceNodeAt ctx cursor).sizeBytes
          · simp only [if_pos hcond] at hw
            refine ih _ _ _ _ (Or.inr hcs2head) ?_ ?_ t hw
            · simp at hlen ⊢
              omega
            · intro it hit
              rcases pushTop_mem topN top _ it hit with rfl | hit
              · simpa using hcs2head
              · exact htop it hit
          · simp only [if_neg hcond] at hw
            refine ih _ _ _ _ (Or.inr hcs2head) ?_ htop t hw
            simp at hlen ⊢
            omega
        · simp only [if_neg hb] at hw
          simp at hw

theorem traceWalkAux_topN_zero (ctx : TraceCtx) (proj : List String → List String) :
    ∀ (fuel cursor : Nat) (callStack : List String) (childStack : List Int)
      (top : List TopStack),
    ∀ t, traceWalkAux ctx proj 0 fuel cursor callStack childStack top = .ok t →
    t = top := by
  intro fuel
  induction fuel with
  | zero =>
    intro cursor callStack childStack top t hw
    exact absurd hw (by simp [traceWalkAux])
  | succ fuel ih =>
    intro cursor callStack childStack top t hw
    match childStack with
    | [] =>
      simp only [traceWalkAux] at hw
      simpa using hw.symm
    | remaining :: restChild =>
      simp only [traceWalkAux] at hw
      by_cases hr : remaining ≤ 0
      · simp only [if_pos hr] at hw
        match restChild, hw with
        | [], hw => exact ih _ _ _ _ t hw
        | r2 :: rest2, hw => exact ih _ _ _ _ t hw
      · simp only [if_neg hr] at hw
        by_cases hb : cursor + ctx.fieldCount ≤ ctx.traceArr.length
        · simp only [if_pos hb, pushTop_zero, ite_self] at hw
          exact ih _ _ _ _ t hw
        · simp only [if_neg hb] at hw
          simp at hw

theorem traceWalkAux_length (ctx : TraceCtx) (proj : List String → List String)
    (topN : Nat) :
    ∀ (fuel cursor : Nat) (callStack : List String) (childStack : List Int)
      (top : List TopStack),
    top.length ≤ topN →
    ∀ t, traceWalkAux ctx proj topN fuel cursor callStack childStack top = .ok t →
    t.length ≤ topN := by
  intro fuel
  induction fuel with
  | zero =>
    intro cursor callStack childStack top _ t hw
    exact absurd hw (by simp [traceWalkAux])
  | succ fuel ih =>
    intro cursor callStack childStack top htop t hw
    match childStack with
    | [] =>
      simp only [traceWalkAux] at hw
      obtain rfl : top = t := by simpa using hw
      exact htop
    | remaining :: restChild =>
      simp only [traceWalkAux] at hw
      by_cases hr : remaining ≤ 0
      · simp only [if_pos hr] at hw
        match restChild, hw with
        | [], hw => exact ih _ _ _ _ htop t hw
        | r2 :: rest2, hw => exact ih _ _ _ _ htop t hw
      · simp only [if_neg hr] at hw
        by_cases hb : cursor + ctx.fieldCount ≤ ctx.traceArr.length
        · simp only [if_pos hb] at hw
          by_cases hcond : ¬((callStack ++ [(decodeTraceNodeAt ctx cursor).fnLabel]).length ≤ 1) ∧
              (decodeTraceNodeAt ctx cursor).children ≤ 0 ∧
              0 < (decodeTraceNodeAt ctx cursor).sizeBytes
          · simp only [if_pos hcond] at hw
            exact ih _ _ _ _ (pushTop_length topN top _ htop) t hw
          · simp only [if_neg hcond] at hw
            exact ih _ _ _ _ htop t hw
        · simp only [if_neg hb] at hw
          simp at hw

theorem traceWalkOverruns_error (ctx : TraceCtx) (proj : List String → List String)
    (topN : Nat) :
    ∀ (fuel cursor : Nat) (childStack : List Int),
    traceWalkOverruns ctx fuel cursor childStack = true →
    ∀ (callStack : List String) (top : List TopStack),
    traceWalkAux ctx proj topN fuel cursor callStack childStack top =
      .error "trace_tree truncated" := by
  intro fuel
  induction fuel with
  | zero =>
    intro cursor childStack h
    exact absurd h (by simp [traceWalkOverruns])
  | succ fuel ih =>
    intro cursor childStack h cs top
    match childStack with
    | [] => exact absurd h (by simp [traceWalkOverruns])
    | remaining :: restChild =>
      simp only [traceWalkOverruns] at h
      simp only [traceWalkAux]
      by_cases hr : remaining ≤ 0
      · simp only [if_pos hr] at h ⊢
        match restChild, h with
        | [], h => exact ih _ _ h _ _
        | r2 :: rest2, h => exact ih _ _ h _ _
      · simp only [if_neg hr] at h ⊢
        by_cases hb : cursor + ctx.fieldCount ≤ ctx.traceArr.length
        · simp only [if_pos hb, decodeTraceNodeAt_children] at h ⊢
          exact ih _ _ h _ _
        · simp only [if_neg hb]

/-! ## Helper lemmas: the capture sink -/

theorem chunkByteLength_append (a b : Chunk) :
    chunkByteLength (a ++ b) = chunkByteLength a + chunkByteLength b := by
  simp [chunkByteLength]

theorem chunkByteLength_ascii {c : Chunk} (h : ∀ w ∈ c, w = 1) :
    chunkByteLength c = c.length := by
  induction c with
  | nil => rfl
  | cons w ws ih =>
    have hw : w = 1 := h w (by simp)
    have ihs : ∀ x ∈ ws, x = 1 := fun x hx => h x (by simp [hx])
    simp [chunkByteLength] at ih ⊢
    rw [ih ihs]
    omega

theorem sinkFileContentBytes_append (st : SinkState) (c : Chunk) (rest : SinkState)
    (h : rest.fileChunks = st.fileChunks ++ [c]) :
    sinkFileContentBytes rest = sinkFileContentBytes st + chunkByteLength c := by
  simp [sinkFileContentBytes, h, chunkByteLength]

theorem sinkStep_file_inv (cfg : SinkCfg) (st : SinkState) (e : SinkEvent)
    (h : SinkFileInv cfg st) : SinkFileInv cfg (sinkStep cfg st e) := by
  obtain ⟨h1, h2, h3⟩ := h
  match e with
  | .ioError msg =>
    exact ⟨h1, h2, h3⟩
  | .chunk c =>
    simp only [sinkStep, sinkOnChunk]
    split
    · exact ⟨h1, h2, h3⟩
    · split
      · -- write-error branch: becomes truncated, nothing written
        refine ⟨by simp, by simpa using h2, ?_⟩
        simpa [sinkFileContentBytes] using h3
      · -- normal path: the inline section leaves the file fields unchanged
        have hgoal : ∀ st1 : SinkState,
            (st1.snapshotTruncated = false →
              st1.fileBytesWritten = st1.totalReceivedBytes ∧
              st1.totalReceivedBytes ≤ cfg.maxSnapshotBytes) →
            st1.fileBytesWritten ≤ cfg.maxSnapshotBytes →
            sinkFileContentBytes st1 = st1.fileBytesWritten →
            SinkFileInv cfg
              (if cfg.shouldReturnInline = true ∧ st1.inlineTruncated = false ∧
                  st1.inlineBytes < cfg.maxInlineBytes then
                { st1 with
                  inlineChunks := st1.inlineChunks ++
                    [if cfg.maxInlineBytes - st1.inlineBytes < c.length then
                      c.take (cfg.maxInlineBytes - st1.inlineBytes) else c],
                  inlineBytes := st1.inlineBytes + chunkByteLength
                    (if cfg.maxInlineBytes - st1.inlineBytes < c.length then
                      c.take (cfg.maxInlineBytes - st1.inlineBytes) else c),
                  inlineTruncated :=
                    if cfg.maxInlineBytes - st1.inlineBytes < c.length then true
                    else st1.inlineTruncated }
              else if cfg.shouldReturnInline = true ∧ cfg.maxInlineBytes ≤ st1.inlineBytes then
                { st1 with inlineTruncated := true }
              else st1) := by
          intro st1 g1 g2 g3
          split
          · exact ⟨g1, g2, by simpa [sinkFileContentBytes] using g3⟩
          · split
            · exact ⟨g1, g2, by simpa [sinkFileContentBytes] using g3⟩
            · exact ⟨g1, g2, g3⟩
        split
        · split
          · -- over budget: truncated, nothing written
            refine hgoal _ (by simp) (by simpa using h2) ?_
            simpa [sinkFileContentBytes] using h3
          · -- within budget: chunk written
            rename_i hnt hle
            refine hgoal _ ?_ ?_ ?_
            · intro _
              have h4 := h1 hnt
              dsimp only
              omega
            · have h4 := h1 hnt
              dsimp only
              omega
            · rw [sinkFileContentBytes_append st c _ (by rfl), h3]
        · -- already truncated: only the total advances
          refine hgoal _ (by simp_all) (by simpa using h2) ?_
          simpa [sinkFileContentBytes] using h3

theorem runSink_file_inv (cfg : SinkCfg) (events : List SinkEvent) :
    SinkFileInv cfg (runSink cfg events) := by
  have hinit : SinkFileInv cfg initialSinkState := by
    refine ⟨fun _ => ⟨rfl, by simp [initialSinkState]⟩, by simp [initialSinkState], rfl⟩
  have hfold : ∀ (l : List SinkEvent) (st : SinkState), SinkFileInv cfg st →
      SinkFileInv cfg (l.foldl (sinkStep cfg) st) := by
    intro l
    induction l with
    | nil => intro st h; exact h
    | cons e rest ih =>
      intro st h
      exact ih _ (sinkStep_file_inv cfg st e h)
  exact hfold events initialSinkState hinit

theorem sinkInlinePayloadBytes_append (st : SinkState) (c : Chunk) (rest : SinkState)
    (h : rest.inlineChunks = st.inlineChunks ++ [c]) :
    sinkInlinePayloadBytes rest = sinkInlinePayloadBytes st + chunkByteLength c := by
  simp [sinkInlinePayloadBytes, h, chunkByteLength]

theorem sinkOnChunk_inline_inv (cfg : SinkCfg) (st : SinkState) (c : Chunk)
    (hinline : cfg.shouldReturnInline = true) (hascii : ∀ w ∈ c, w = 1)
    (h : SinkInlineInv cfg st) : SinkInlineInv cfg (sinkOnChunk cfg st c) := by
  obtain ⟨he, h1, h2, h3⟩ := h
  simp only [sinkOnChunk]
  split
  · exact ⟨he, h1, h2, h3⟩
  · rw [he]
    simp only [Option.isSome_none, Bool.false_eq_true, and_false, if_false]
    have hgoal : ∀ st1 : SinkState,
        st1.streamError = none →
        st1.inlineChunks = st.inlineChunks →
        st1.inlineBytes = st.inlineBytes →
        st1.inlineTruncated = st.inlineTruncated →
        st1.totalReceivedBytes = st.totalReceivedBytes + chunkByteLength c →
        SinkInlineInv cfg
          (if cfg.shouldReturnInline = true ∧ st1.inlineTruncated = false ∧
              st1.inlineBytes < cfg.maxInlineBytes then
            { st1 with
              inlineChunks := st1.inlineChunks ++
                [if cfg.maxInlineBytes - st1.inlineBytes < c.length then
                  c.take (cfg.maxInlineBytes - st1.inlineBytes) else c],
              inlineBytes := st1.inlineBytes + chunkByteLength
                (if cfg.maxInlineBytes - st1.inlineBytes < c.length then
                  c.take (cfg.maxInlineBytes - st1.inlineBytes) else c),
              inlineTruncated :=
                if cfg.maxInlineBytes - st1.inlineBytes < c.length then true
                else st1.inlineTruncated }
          else if cfg.shouldReturnInline = true ∧ cfg.maxInlineBytes ≤ st1.inlineBytes then
            { st1 with inlineTruncated := true }
          else st1) := by
      intro st1 g0 g1 g2 g3 g4
      have hlen : chunkByteLength c = c.length := chunkByteLength_ascii hascii
      have hp1 : sinkInlinePayloadBytes st1 = st1.inlineBytes := by
        rw [g2]
        simp only [sinkInlinePayloadBytes, g1]
        simpa [sinkInlinePayloadBytes] using h3
      split
      · rename_i hA
        obtain ⟨-, hA2, hA3⟩ := hA
        by_cases hrem : cfg.maxInlineBytes - st1.inlineBytes < c.length
        · have htake : chunkByteLength (c.take (cfg.maxInlineBytes - st1.inlineBytes)) =
              cfg.maxInlineBytes - st1.inlineBytes := by
            rw [chunkByteLength_ascii (fun w hw => hascii w (List.mem_of_mem_take hw))]
            simp
            omega
          simp only [if_pos hrem]
          refine ⟨g0, ?_, ?_, ?_⟩
          · dsimp only
            rw [htake]
            omega
          · dsimp only
            intro hfalse
            exact absurd hfalse (by simp)
          · dsimp only
            rw [sinkInlinePayloadBytes_append st1 _ _ rfl, hp1]
        · simp only [if_neg hrem]
          refine ⟨g0, ?_, ?_, ?_⟩
          · dsimp only
            omega
          · dsimp only
            intro hnt
            rw [g3] at hnt
            rw [g2] at hA3 ⊢
            have h5 := h2 hnt
            constructor
            · omega
            · omega
          · dsimp only
            rw [sinkInlinePayloadBytes_append st1 _ _ rfl, hp1]
      · split
        · rename_i hB
          refine ⟨g0, by dsimp only; omega, ?_, ?_⟩
          · dsimp only
            intro hfalse
            exact absurd hfalse (by simp)
          · dsimp only
            rw [show sinkInlinePayloadBytes { st1 with inlineTruncated := true } =
              sinkInlinePayloadBytes st1 from rfl, hp1]
        · rename_i hA hB
          rw [hinline] at hA hB
          simp at hA hB
          have htr : st1.inlineTruncated = true := by
            cases htr0 : st1.inlineTruncated
            · exact absurd (hA htr0) (by omega)
            · rfl
          refine ⟨g0, by omega, ?_, hp1⟩
          intro hfalse
          rw [htr] at hfalse
          exact absurd hfalse (by simp)
    split
    · split
      · exact hgoal _ rfl rfl rfl rfl rfl
      · exact hgoal _ rfl rfl rfl rfl rfl
    · exact hgoal _ rfl rfl rfl rfl rfl

theorem runSink_inline_inv (cfg : SinkCfg) (events : List SinkEvent)
    (hinline : cfg.shouldReturnInline = true)
    (hevents : ∀ e ∈ events, ∃ c, e = SinkEvent.chunk c ∧ ∀ w ∈ c, w = 1) :
    SinkInlineInv cfg (runSink cfg events) := by
  have hinit : SinkInlineInv cfg initialSinkState := by
    refine ⟨rfl, by simp [initialSinkState], fun _ => ⟨rfl, by simp [initialSinkState]⟩, rfl⟩
  have hfold : ∀ (l : List SinkEvent), (∀ e ∈ l, ∃ c, e = SinkEvent.chunk c ∧ ∀ w ∈ c, w = 1) →
      ∀ (st : SinkState), SinkInlineInv cfg st →
      SinkInlineInv cfg (l.foldl (sinkStep cfg) st) := by
    intro l
    induction l with
    | nil => intro _ st h; exact h
    | cons e rest ih =>
      intro hl st h
      obtain ⟨c, rfl, hc⟩ := hl e (by simp)
      exact ih (fun e he => hl e (by simp [he])) _
        (sinkOnChunk_inline_inv cfg st c hinline hc h)
  exact hfold events hevents initialSinkState hinit

/-! ## Helper lemmas: the object-graph record loop -/

theorem heapLoop_total (nodesArr : List Int) (strings : List String)
    (typeEnum : Option (List String)) (fieldCount : Nat)
    (idxType idxName idxId idxSelfSize : Int) :
    ∀ (l : List Nat) (acc : Int × List ConstructorAgg × List HeapNodeRec),
    (l.foldl (heapLoopStep nodesArr strings typeEnum fieldCount idxType idxName idxId idxSelfSize) acc).1 =
      acc.1 + (l.map (fun i =>
        (decodeHeapNode nodesArr strings typeEnum fieldCount idxType idxName idxId idxSelfSize i).selfSizeBytes)).sum := by
  intro l
  induction l with
  | nil => intro acc; simp
  | cons i rest ih =>
    intro acc
    rw [List.foldl_cons, ih]
    simp [heapLoopStep]
    omega

/-! ## Claim theorems -/

/-- Claim C1, counterexample: the inline half of the claim fails as stated.
One chunk of three two-byte characters against an inline budget of 4 bytes
makes the cumulative total 6 exceed the budget, yet the sink appends the
whole chunk (the character-count slice test `chunk.length > remaining` does
not fire), so the inline payload holds 6 bytes and the inline-truncation
flag stays false. -/
theorem C1_claim_counterexample :
    ¬ (∀ (cfg : SinkCfg) (events : List SinkEvent),
        cfg.shouldReturnInline = true →
        cfg.maxInlineBytes < (runSink cfg events).totalReceivedBytes →
        (runSink cfg events).inlineTruncated = true ∧
        sinkInlinePayloadBytes (runSink cfg events) ≤ cfg.maxInlineBytes) := by
  intro h
  have hc := h { shouldReturnInline := true, maxSnapshotBytes := 100, maxInlineBytes := 4 }
    [SinkEvent.chunk [2, 2, 2]] rfl (by decide)
  exact absurd hc (by decide)

/-- Claim C1 (amended): for every event sequence, if the cumulative byte
total exceeds the file budget then the file-truncation flag is set and the
bytes written to the file (counter and actual content) stay within the
budget; and — for sequences of single-byte (ASCII) text chunks with no
write error, when inline output is requested — if the cumulative total
exceeds the inline budget then the inline-truncation flag is set and the
inline payload stays within the inline budget. -/
theorem C1_sink_truncation (cfg : SinkCfg) (events : List SinkEvent) :
    (cfg.maxSnapshotBytes < (runSink cfg events).totalReceivedBytes →
      (runSink cfg events).snapshotTruncated = true ∧
      (runSink cfg events).fileBytesWritten ≤ cfg.maxSnapshotBytes ∧
      sinkFileContentBytes (runSink cfg events) ≤ cfg.maxSnapshotBytes) ∧
    (cfg.shouldReturnInline = true →
      (∀ e ∈ events, ∃ c, e = SinkEvent.chunk c ∧ ∀ w ∈ c, w = 1) →
      cfg.maxInlineBytes < (runSink cfg events).totalReceivedBytes →
      (runSink cfg events).inlineTruncated = true ∧
      sinkInlinePayloadBytes (runSink cfg events) ≤ cfg.maxInlineBytes) := by
  constructor
  · intro hex
    obtain ⟨i1, i2, i3⟩ := runSink_file_inv cfg events
    have htr : (runSink cfg events).snapshotTruncated = true := by
      cases htr0 : (runSink cfg events).snapshotTruncated
      · obtain ⟨-, hle⟩ := i1 htr0
        omega
      · rfl
    exact ⟨htr, i2, by omega⟩
  · intro hinline hevents hex
    obtain ⟨-, j1, j2, j3⟩ := runSink_inline_inv cfg events hinline hevents
    have htr : (runSink cfg events).inlineTruncated = true := by
      cases htr0 : (runSink cfg events).inlineTruncated
      · obtain ⟨-, hle⟩ := j2 htr0
        omega
      · rfl
    exact ⟨htr, by omega⟩

/-- Claim C1, witness: two three-byte ASCII chunks against a 5-byte file
budget and a 4-byte inline budget trip both truncations within budget. -/
theorem C1_sink_truncation_witness :
    ((5 : Nat) < (runSink { shouldReturnInline := true, maxSnapshotBytes := 5, maxInlineBytes := 4 }
        [SinkEvent.chunk [1, 1, 1], SinkEvent.chunk [1, 1, 1]]).totalReceivedBytes) ∧
    ((runSink { shouldReturnInline := true, maxSnapshotBytes := 5, maxInlineBytes := 4 }
        [SinkEvent.chunk [1, 1, 1], SinkEvent.chunk [1, 1, 1]]).snapshotTruncated = true ∧
      (runSink { shouldReturnInline := true, maxSnapshotBytes := 5, maxInlineBytes := 4 }
        [SinkEvent.chunk [1, 1, 1], SinkEvent.chunk [1, 1, 1]]).fileBytesWritten ≤ 5 ∧
      sinkFileContentBytes (runSink { shouldReturnInline := true, maxSnapshotBytes := 5, maxInlineBytes := 4 }
        [SinkEvent.chunk [1, 1, 1], SinkEvent.chunk [1, 1, 1]]) ≤ 5) ∧
    ((runSink { shouldReturnInline := true, maxSnapshotBytes := 5, maxInlineBytes := 4 }
        [SinkEvent.chunk [1, 1, 1], SinkEvent.chunk [1, 1, 1]]).inlineTruncated = true ∧
      sinkInlinePayloadBytes (runSink { shouldReturnInline := true, maxSnapshotBytes := 5, maxInlineBytes := 4 }
        [SinkEvent.chunk [1, 1, 1], SinkEvent.chunk [1, 1, 1]]) ≤ 4) :=
  ⟨by decide,
   (C1_sink_truncation _ _).1 (by decide),
   (C1_sink_truncation _ _).2 rfl
     (by
       intro e he
       simp only [List.mem_cons, List.not_mem_nil, or_false] at he
       rcases he with rfl | rfl
       · exact ⟨[1, 1, 1], rfl, by decide⟩
       · exact ⟨[1, 1, 1], rfl, by decide⟩)
     (by decide)⟩

/-- Claim C4, counterexample: the parse gate does not attempt a parse
exactly when the sink reported truncation or the file exceeds
maxParseBytes — a recorded stream write error is a third skip condition
(`if (streamError) throw streamError` precedes the gate), so a request with
a write error, no truncation and a small file skips the parse anyway. -/
theorem C4_parse_gate_claim_counterexample :
    ¬ (∀ g : GateInput, parseGateDecision g = ParseDecision.attempted ↔
        (g.snapshotTruncated = false ∧ g.fileSize ≤ g.maxParseBytes)) := by
  intro h
  have hc := (h ⟨some "EIO", false, 0, 100⟩).mpr ⟨rfl, by decide⟩
  exact absurd hc (by decide)

/-- Claim C4 (amended): the parse gate attempts a parse exactly when no
stream write error was recorded, the sink did not report file truncation,
and the on-disk size is within maxParseBytes; in every other case parsing
is skipped. -/
theorem C4_parse_gate (g : GateInput) :
    parseGateDecision g = ParseDecision.attempted ↔
      (g.streamError = none ∧ g.snapshotTruncated = false ∧
        g.fileSize ≤ g.maxParseBytes) := by
  unfold parseGateDecision
  cases hse : g.streamError with
  | some msg => simp [hse]
  | none =>
    simp only [hse, true_and]
    by_cases htr : g.snapshotTruncated = true
    · simp [htr]
    · simp only [if_neg htr]
      by_cases hfs : g.maxParseBytes < g.fileSize
      · simp [hfs]
      · simp [hfs]
        constructor
        · simpa using htr
        · omega

/-- Claim C9, counterexample: `trackAllocations` does not stop tracking
before the capture cycle — the capture-and-stream cycle
(`HeapProfiler.takeHeapSnapshot` inside `captureHeapSnapshotRaw`) is
triggered before `HeapProfiler.stopTrackingHeapObjects`. -/
theorem C9_claim_counterexample :
    ¬ (∀ gc : Bool, cdpIndexOf (trackAllocationsCdpSequence gc) CdpCall.stopTrackingHeapObjects <
        cdpIndexOf (trackAllocationsCdpSequence gc) CdpCall.takeHeapSnapshot) := by
  intro h
  exact absurd (h false) (by decide)

/-- Claim C9 (amended): in every `trackAllocations` request the protocol
interaction order is: start allocation tracking, suspend for the requested
duration, trigger the capture-and-stream cycle for the trace payload, and
only then stop tracking. -/
theorem C9_tracking_sequence (gc : Bool) :
    cdpIndexOf (trackAllocationsCdpSequence gc) CdpCall.startTrackingHeapObjects <
      cdpIndexOf (trackAllocationsCdpSequence gc) CdpCall.sleepForDuration ∧
    cdpIndexOf (trackAllocationsCdpSequence gc) CdpCall.sleepForDuration <
      cdpIndexOf (trackAllocationsCdpSequence gc) CdpCall.takeHeapSnapshot ∧
    cdpIndexOf (trackAllocationsCdpSequence gc) CdpCall.takeHeapSnapshot <
      cdpIndexOf (trackAllocationsCdpSequence gc) CdpCall.stopTrackingHeapObjects := by
  cases gc <;> decide

/-- Claim C3: a captured document whose metadata lacks a required
node-field index (type, name or self_size) makes the object-graph decoder
fail with the missing-field error; the orchestrator's parse phase catches
the failure, appends a decode-failure limitation, marks the summary
`parsed = false`, and the request still returns a success result. -/
theorem C3_missing_field_graceful (d : HeapDoc) (topN : Nat) (g : GateInput)
    (snap : HeapSnapshotHeader) (meta : HeapMeta)
    (nodesArr : List Int) (strings : List String)
    (hsnap : d.snapshot = some snap) (hmeta : snap.meta = some meta)
    (hnodes : d.nodes = some nodesArr) (hstrings : d.strings = some strings)
    (hmiss : jsIndexOf meta.node_fields "type" < 0 ∨
      jsIndexOf meta.node_fields "name" < 0 ∨
      jsIndexOf meta.node_fields "self_size" < 0)
    (hse : g.streamError = none) (htr : g.snapshotTruncated = false)
    (hsize : g.fileSize ≤ g.maxParseBytes) :
    parseV8HeapSnapshot d topN = .error "heap snapshot meta missing required node_fields" ∧
    getHeapSnapshotRequestOutcome (.ok g) d topN = .ok
      { parsed := false, totalNodes := none, totalSizeBytes := none,
        topConstructors := none, topNodes := none,
        newLimitations :=
          ["failed to parse heap snapshot: heap snapshot meta missing required node_fields"] } := by
  have hparse : parseV8HeapSnapshot d topN =
      .error "heap snapshot meta missing required node_fields" := by
    unfold parseV8HeapSnapshot
    simp only [hsnap, hnodes, hstrings, hmeta]
    simp only [if_pos hmiss]
  refine ⟨hparse, ?_⟩
  unfold getHeapSnapshotRequestOutcome getHeapSnapshotParsePhase parseGateDecision
  simp only [hse, htr, Bool.false_eq_true, if_false,
    if_neg (by omega : ¬g.maxParseBytes < g.fileSize)]
  rw [hparse]
  rfl

/-- Claim C3, witness: the concrete document missing `self_size`. -/
theorem C3_missing_field_graceful_witness :
    parseV8HeapSnapshot missingSelfSizeHeapDoc 20 =
      .error "heap snapshot meta missing required node_fields" ∧
    getHeapSnapshotRequestOutcome (.ok ⟨none, false, 10, 100⟩) missingSelfSizeHeapDoc 20 = .ok
      { parsed := false, totalNodes := none, totalSizeBytes := none,
        topConstructors := none, topNodes := none,
        newLimitations :=
          ["failed to parse heap snapshot: heap snapshot meta missing required node_fields"] } :=
  C3_missing_field_graceful missingSelfSizeHeapDoc 20 ⟨none, false, 10, 100⟩
    { meta := some missingSelfSizeHeapMeta, node_count := some 1 }
    missingSelfSizeHeapMeta [0, 0, 1] ["Foo"] rfl rfl rfl rfl
    (by decide) rfl rfl (by decide)

/-- Claim C2: for every well-formed document the object-graph decoder
reports totalNodes equal to the declared `snapshot.node_count` when present
and otherwise `len(nodes) / len(node_fields)`, and totalSizeBytes equal to
the sum of the `self_size` field over every decoded record; on the
three-node Foo/Foo/Bar document it returns exactly the ranked aggregates of
Scenario A. -/
theorem C2_object_graph_decode :
    (∀ (d : HeapDoc) (topN : Nat) (snap : HeapSnapshotHeader) (meta : HeapMeta)
        (nodesArr : List Int) (strings : List String) (r : ParsedHeap),
      d.snapshot = some snap → snap.meta = some meta → d.nodes = some nodesArr →
      d.strings = some strings →
      parseV8HeapSnapshot d topN = .ok r →
      r.totalNodes = (match snap.node_count with
        | some n => n
        | none => Int.ofNat (nodesArr.length / meta.node_fields.length)) ∧
      r.totalSizeBytes = ((List.range r.totalNodes.toNat).map (fun i =>
        (nodesArr.get? (i * meta.node_fields.length +
          (jsIndexOf meta.node_fields "self_size").toNat)).getD 0)).sum) ∧
    parseV8HeapSnapshot scenarioHeapDoc 20 = .ok scenarioHeapExpected := by
  constructor
  · intro d topN snap meta nodesArr strings r hsnap hmeta hnodes hstrings h
    unfold parseV8HeapSnapshot at h
    simp only [hsnap, hnodes, hstrings, hmeta] at h
    split at h
    · exact absurd h (by simp)
    · rw [Except.ok.injEq] at h
      subst h
      refine ⟨rfl, ?_⟩
      simp only
      rw [heapLoop_total]
      simp only [zero_add]
      rfl
  · rfl

/-- Claim C2, witness: the general equations instantiated on the
Scenario A document. -/
theorem C2_object_graph_decode_witness :
    scenarioHeapExpected.totalNodes = 3 ∧ scenarioHeapExpected.totalSizeBytes = 8000 := by
  have h := C2_object_graph_decode.1 scenarioHeapDoc 20
    { meta := some scenarioHeapMeta, node_count := some 3 } scenarioHeapMeta
    [0, 0, 1, 1000, 0, 0, 2, 2000, 0, 1, 3, 5000] ["Foo", "Bar"] scenarioHeapExpected
    rfl rfl rfl rfl C2_object_graph_decode.2
  exact ⟨h.1.trans (by decide), h.2.trans (by decide)⟩

/-- Claim C10: a declared `snapshot.node_count` exceeding
`len(nodes) / len(node_fields)` is not treated as malformed: the decoder
still succeeds, totalNodes is the declared count, and every record starting
past the end of the flat array decodes with self-size 0 and the fallback
name "undefined". -/
theorem C10_overdeclared_count_safe (d : HeapDoc) (topN : Nat)
    (snap : HeapSnapshotHeader) (meta : HeapMeta)
    (nodesArr : List Int) (strings : List String) (n : Int)
    (hsnap : d.snapshot = some snap) (hmeta : snap.meta = some meta)
    (hnodes : d.nodes = some nodesArr) (hstrings : d.strings = some strings)
    (hcount : snap.node_count = some n)
    (hreq : ¬(jsIndexOf meta.node_fields "type" < 0 ∨
      jsIndexOf meta.node_fields "name" < 0 ∨
      jsIndexOf meta.node_fields "self_size" < 0))
    (_hover : Int.ofNat (nodesArr.length / meta.node_fields.length) < n) :
    (∃ r, parseV8HeapSnapshot d topN = .ok r ∧ r.totalNodes = n) ∧
    (∀ (strs : List String) (typeEnum : Option (List String)) (fieldCount : Nat)
        (idxType idxName idxId idxSelfSize : Int) (i : Nat),
      nodesArr.length ≤ i * fieldCount →
      (decodeHeapNode nodesArr strs typeEnum fieldCount idxType idxName idxId
        idxSelfSize i).selfSizeBytes = 0 ∧
      (decodeHeapNode nodesArr strs typeEnum fieldCount idxType idxName idxId
        idxSelfSize i).name = "undefined") := by
  constructor
  · unfold parseV8HeapSnapshot
    simp only [hsnap, hnodes, hstrings, hmeta, hcount, if_neg hreq]
    exact ⟨_, rfl, rfl⟩
  · intro strs typeEnum fieldCount idxType idxName idxId idxSelfSize i hpast
    have hget : ∀ k : Nat, nodesArr.get? (i * fieldCount + k) = none := by
      intro k
      rw [List.get?_eq_none]
      omega
    unfold decodeHeapNode
    simp only [hget]
    exact ⟨rfl, trivial⟩

/-- Claim C10, witness: the document declaring 4 nodes over a one-record
array, and the decode of its out-of-range record index 2. -/
theorem C10_overdeclared_count_safe_witness :
    (∃ r, parseV8HeapSnapshot overdeclaredHeapDoc 20 = .ok r ∧ r.totalNodes = 4) ∧
    ((decodeHeapNode [0, 0, 1000] ["Foo"] (some ["object"]) 3 0 1 (-1) 2 2).selfSizeBytes = 0 ∧
     (decodeHeapNode [0, 0, 1000] ["Foo"] (some ["object"]) 3 0 1 (-1) 2 2).name = "undefined") :=
  ⟨(C10_overdeclared_count_safe overdeclaredHeapDoc 20
      { meta := some overdeclaredHeapMeta, node_count := some 4 } overdeclaredHeapMeta
      [0, 0, 1000] ["Foo"] 4 rfl rfl rfl rfl rfl (by decide) (by decide)).1,
   (C10_overdeclared_count_safe overdeclaredHeapDoc 20
      { meta := some overdeclaredHeapMeta, node_count := some 4 } overdeclaredHeapMeta
      [0, 0, 1000] ["Foo"] 4 rfl rfl rfl rfl rfl (by decide) (by decide)).2
     ["Foo"] (some ["object"]) 3 0 1 (-1) 2 2 (by decide)⟩

/-- Claim C5: the allocation-trace decoder takes the process-wide totals
from the very first record of the pre-order trace tree (mapping a
non-positive value to an omitted field), and on the Scenario B tree
root(600, 3) → foo(600, 3) → bar(500, 2) it reports totals 600 and 3 and
exactly one leaf stack [foo, bar] with 500 bytes and count 2 — the root's
frame label excluded. -/
theorem C5_allocation_root_totals :
    (∀ (d : TraceDoc) (topN : Nat) (r : AllocationTrackingSummary),
      parseV8HeapSnapshotAllocationTrace d topN = .ok r →
      r.totalAllocatedBytes =
        (if 0 < (traceRootNode d).sizeBytes then some (traceRootNode d).sizeBytes else none) ∧
      r.totalCount =
        (if 0 < (traceRootNode d).count then some (traceRootNode d).count else none)) ∧
    parseV8HeapSnapshotAllocationTrace scenarioTraceDoc 20 = .ok scenarioTraceExpected := by
  constructor
  · intro d topN r h
    unfold parseV8HeapSnapshotAllocationTrace at h
    unfold traceRootNode
    split at h
    · rename_i meta strings traceTree fnInfos hm hs ht hi
      split at h
      · rename_i nodeFields fnFields hnf hff
        split at h
        · exact absurd h (by simp)
        · split at h
          · exact absurd h (by simp)
          · dsimp only at h
            split at h
            · split at h
              · exact absurd h (by simp)
              · rw [Except.ok.injEq] at h
                subst h
                exact ⟨rfl, rfl⟩
            · exact absurd h (by simp)
      · exact absurd h (by simp)
    · exact absurd h (by simp)
  · rfl

/-- Claim C5, witness: the Scenario B document instantiates the general
root-totals equations. -/
theorem C5_allocation_root_totals_witness :
    scenarioTraceExpected.totalAllocatedBytes =
      (if 0 < (traceRootNode scenarioTraceDoc).sizeBytes
        then some (traceRootNode scenarioTraceDoc).sizeBytes else none) ∧
    scenarioTraceExpected.totalCount =
      (if 0 < (traceRootNode scenarioTraceDoc).count
        then some (traceRootNode scenarioTraceDoc).count else none) :=
  C5_allocation_root_totals.1 scenarioTraceDoc 20 scenarioTraceExpected
    C5_allocation_root_totals.2

/-- Claim C8: with topN = 0 the allocation-trace decoder disables ranking —
no stacks are reported (`topStacks` is omitted) — while the totals are
still taken from the root record exactly as for any other topN. -/
theorem C8_topn_zero_totals (d : TraceDoc) (r : AllocationTrackingSummary)
    (h : parseV8HeapSnapshotAllocationTrace d 0 = .ok r) :
    r.topStacks = none ∧ topStacksList r = [] ∧
    r.totalAllocatedBytes =
      (if 0 < (traceRootNode d).sizeBytes then some (traceRootNode d).sizeBytes else none) ∧
    r.totalCount =
      (if 0 < (traceRootNode d).count then some (traceRootNode d).count else none) := by
  unfold parseV8HeapSnapshotAllocationTrace at h
  unfold traceRootNode
  split at h
  · rename_i meta strings traceTree fnInfos hm hs ht hi
    split at h
    · rename_i nodeFields fnFields hnf hff
      split at h
      · exact absurd h (by simp)
      · split at h
        · exact absurd h (by simp)
        · dsimp only at h
          split at h
          · split at h
            · exact absurd h (by simp)
            · rename_i rawTop hw
              have hraw : rawTop = [] := traceWalkAux_topN_zero _ _ _ _ _ _ _ rawTop hw
              subst hraw
              rw [Except.ok.injEq] at h
              subst h
              refine ⟨by simp [sortByDesc], by simp [topStacksList, sortByDesc], rfl, rfl⟩
          · exact absurd h (by simp)
    · exact absurd h (by simp)
  · exact absurd h (by simp)

/-- Claim C8, witness: Scenario B parsed with topN = 0. -/
theorem C8_topn_zero_totals_witness :
    ∃ r, parseV8HeapSnapshotAllocationTrace scenarioTraceDoc 0 = .ok r ∧
      r.topStacks = none ∧ topStacksList r = [] ∧
      r.totalAllocatedBytes =
        (if 0 < (traceRootNode scenarioTraceDoc).sizeBytes
          then some (traceRootNode scenarioTraceDoc).sizeBytes else none) ∧
      r.totalCount =
        (if 0 < (traceRootNode scenarioTraceDoc).count
          then some (traceRootNode scenarioTraceDoc).count else none) :=
  ⟨{ parsed := true, totalAllocatedBytes := some 600, totalCount := some 3, topStacks := none },
   by rfl,
   C8_topn_zero_totals scenarioTraceDoc
     { parsed := true, totalAllocatedBytes := some 600, totalCount := some 3, topStacks := none }
     (by rfl)⟩

/-- Claim C7: a trace document whose declared child counts overrun the
available record sequence — the depth-first walk needs to read a record
starting past the end of the flat array, as decided by the control-flow
skeleton `traceDocOverruns` — makes the decoder fail with the
truncated-trace error instead of returning a summary. -/
theorem C7_truncated_trace_error (d : TraceDoc) (topN : Nat)
    (hov : traceDocOverruns d = true) :
    parseV8HeapSnapshotAllocationTrace d topN = .error "trace_tree truncated" := by
  unfold traceDocOverruns at hov
  unfold parseV8HeapSnapshotAllocationTrace
  split at hov
  · rename_i meta strings traceTree fnInfos hm hs ht hi
    split at hov
    · rename_i nodeFields fnFields hnf hff
      split at hov
      · simp at hov
      · rename_i hz
        split at hov
        · simp at hov
        · rename_i hidx
          rw [if_neg hz, if_neg hidx]
          dsimp only at hov ⊢
          split at hov
          · rename_i hlen
            rw [if_pos hlen, decodeTraceNodeAt_children]
            rw [traceWalkOverruns_error _ _ topN _ _ _ hov]
          · rename_i hlen
            rw [if_neg hlen]
    · exact absurd hov (by simp)
  · exact absurd hov (by simp)

/-- Claim C7, witness: a root declaring two children over a two-record
array. -/
theorem C7_truncated_trace_error_witness :
    traceDocOverruns overrunTraceDoc = true ∧
    parseV8HeapSnapshotAllocationTrace overrunTraceDoc 7 = .error "trace_tree truncated" :=
  ⟨by decide, C7_truncated_trace_error overrunTraceDoc 7 (by decide)⟩

/-- Claim C6: decoder outputs are rank-ordered and bounded — the
object-graph decoder's topConstructors and topNodes are sorted
non-increasing by selfSizeBytes with length at most topN, and the
allocation-trace decoder's reported stacks are sorted non-increasing by
sizeBytes with length at most topN; moreover the reported stacks are
exactly the root-headed full frame paths (kept by the comparison decoder
`traceGhostTopStacks`) with the synthetic root frame removed. -/
theorem C6_rankings_bounded_sorted :
    (∀ (d : HeapDoc) (topN : Nat) (r : ParsedHeap),
      parseV8HeapSnapshot d topN = .ok r →
      r.topConstructors.Pairwise (fun a b => b.selfSizeBytes ≤ a.selfSizeBytes) ∧
      r.topConstructors.length ≤ topN ∧
      r.topNodes.Pairwise (fun a b => b.selfSizeBytes ≤ a.selfSizeBytes) ∧
      r.topNodes.length ≤ topN) ∧
    (∀ (d : TraceDoc) (topN : Nat) (r : AllocationTrackingSummary),
      parseV8HeapSnapshotAllocationTrace d topN = .ok r →
      (topStacksList r).Pairwise (fun a b => b.sizeBytes ≤ a.sizeBytes) ∧
      (topStacksList r).length ≤ topN ∧
      ∃ ghost, traceGhostTopStacks d topN = .ok ghost ∧
        topStacksList r = ghost.map dropRootFrame ∧
        ∀ it ∈ ghost, it.stackTrace.head? = some (traceRootLabel d)) := by
  constructor
  · intro d topN r h
    unfold parseV8HeapSnapshot at h
    split at h
    · split at h
      · exact absurd h (by simp)
      · rename_i m hm
        dsimp only at h
        by_cases hreq : jsIndexOf m.node_fields "type" < 0 ∨
            jsIndexOf m.node_fields "name" < 0 ∨ jsIndexOf m.node_fields "self_size" < 0
        · rw [if_pos hreq] at h
          exact absurd h (by simp)
        · rw [if_neg hreq] at h
          rw [Except.ok.injEq] at h
          subst h
          refine ⟨?_, ?_, ?_, ?_⟩
          · exact List.Pairwise.sublist (List.take_sublist _ _) (pairwise_sortByDesc _ _)
          · simpa using List.length_take_le _ _
          · exact List.Pairwise.sublist (List.take_sublist _ _) (pairwise_sortByDesc _ _)
          · simpa using List.length_take_le _ _
    · exact absurd h (by simp)
  · intro d topN r h
    unfold parseV8HeapSnapshotAllocationTrace at h
    split at h
    · rename_i meta strings traceTree fnInfos hm hs ht hi
      split at h
      · rename_i nodeFields fnFields hnf hff
        split at h
        · exact absurd h (by simp)
        · rename_i hz
          split at h
          · exact absurd h (by simp)
          · rename_i hidx
            dsimp only at h
            split at h
            · rename_i hlen
              split at h
              · exact absurd h (by simp)
              · rename_i rawTop hw
                rw [Except.ok.injEq] at h
                subst h
                have hts : topStacksList
                    { parsed := true,
                      totalAllocatedBytes := if 0 < (decodeTraceNodeAt (buildTraceCtx nodeFields fnFields strings fnInfos traceTree) 0).sizeBytes then some (decodeTraceNodeAt (buildTraceCtx nodeFields fnFields strings fnInfos traceTree) 0).sizeBytes else none,
                      totalCount := if 0 < (decodeTraceNodeAt (buildTraceCtx nodeFields fnFields strings fnInfos traceTree) 0).count then some (decodeTraceNodeAt (buildTraceCtx nodeFields fnFields strings fnInfos traceTree) 0).count else none,
                      topStacks := if (sortByDesc (fun s => s.sizeBytes) rawTop).length ≠ 0 then some (sortByDesc (fun s => s.sizeBytes) rawTop) else none } =
                    sortByDesc (fun s => s.sizeBytes) rawTop := by
                  by_cases hl : (sortByDesc (fun s => s.sizeBytes) rawTop).length ≠ 0
                  · simp [topStacksList, hl]
                  · simp only [topStacksList, if_neg hl]
                    simp at hl
                    rw [hl]
                    rfl
                rw [hts]
                refine ⟨pairwise_sortByDesc _ _, ?_, ?_⟩
                · rw [length_sortByDesc]
                  exact traceWalkAux_length _ _ topN _ _ _ _ _ (by simp) rawTop hw
                · have hrel := traceWalkAux_drop_map (buildTraceCtx nodeFields fnFields strings fnInfos traceTree) topN
                    (traceWalkFuel (buildTraceCtx nodeFields fnFields strings fnInfos traceTree).traceArr.length)
                    (buildTraceCtx nodeFields fnFields strings fnInfos traceTree).fieldCount
                    [(decodeTraceNodeAt (buildTraceCtx nodeFields fnFields strings fnInfos traceTree) 0).fnLabel]
                    [(decodeTraceNodeAt (buildTraceCtx nodeFields fnFields strings fnInfos traceTree) 0).children]
                    []
                  simp only [List.map_nil] at hrel
                  rw [hw] at hrel
                  cases hgw : traceWalkAux (buildTraceCtx nodeFields fnFields strings fnInfos traceTree) id topN
                      (traceWalkFuel (buildTraceCtx nodeFields fnFields strings fnInfos traceTree).traceArr.length)
                      (buildTraceCtx nodeFields fnFields strings fnInfos traceTree).fieldCount
                      [(decodeTraceNodeAt (buildTraceCtx nodeFields fnFields strings fnInfos traceTree) 0).fnLabel]
                      [(decodeTraceNodeAt (buildTraceCtx nodeFields fnFields strings fnInfos traceTree) 0).children]
                      [] with
                  | error e =>
                    rw [hgw] at hrel
                    exact absurd hrel (by simp [Except.map])
                  | ok g =>
                    rw [hgw] at hrel
                    simp only [Except.map] at hrel
                    rw [Except.ok.injEq] at hrel
                    refine ⟨sortByDesc (fun s => s.sizeBytes) g, ?_, ?_, ?_⟩
                    · unfold traceGhostTopStacks
                      simp only [hm, hs, ht, hi, hnf, hff]
                      rw [if_neg hz, if_neg hidx]
                      rw [if_pos hlen, hgw]
                    · rw [hrel,
                        sortByDesc_map (fun s : TopStack => s.sizeBytes) dropRootFrame (fun s => rfl)]
                    · intro it hit
                      rw [(mem_sortByDesc _ it g)] at hit
                      have hroot : traceRootLabel d =
                          (decodeTraceNodeAt (buildTraceCtx nodeFields fnFields strings fnInfos traceTree) 0).fnLabel := by
                        unfold traceRootLabel traceRootNode
                        simp only [hm, hs, ht, hi, hnf, hff]
                      rw [hroot]
                      refine traceWalkAux_head_invariant
                        (buildTraceCtx nodeFields fnFields strings fnInfos traceTree) topN
                        (decodeTraceNodeAt (buildTraceCtx nodeFields fnFields strings fnInfos traceTree) 0).fnLabel
                        _ _ _ _ _ ?_ ?_ ?_ g hgw it hit
                      · exact Or.inr rfl
                      · rfl
                      · simp
            · exact absurd h (by simp)
      · exact absurd h (by simp)
    · exact absurd h (by simp)

/-- Claim C6, witness: the Scenario A and Scenario B documents instantiate
the ranking bounds. -/
theorem C6_rankings_bounded_sorted_witness :
    (scenarioHeapExpected.topConstructors.Pairwise (fun a b => b.selfSizeBytes ≤ a.selfSizeBytes) ∧
     scenarioHeapExpected.topConstructors.length ≤ 20 ∧
     scenarioHeapExpected.topNodes.Pairwise (fun a b => b.selfSizeBytes ≤ a.selfSizeBytes) ∧
     scenarioHeapExpected.topNodes.length ≤ 20) ∧
    ((topStacksList scenarioTraceExpected).Pairwise (fun a b => b.sizeBytes ≤ a.sizeBytes) ∧
     (topStacksList scenarioTraceExpected).length ≤ 20 ∧
     ∃ ghost, traceGhostTopStacks scenarioTraceDoc 20 = .ok ghost ∧
       topStacksList scenarioTraceExpected = ghost.map dropRootFrame ∧
       ∀ it ∈ ghost, it.stackTrace.head? = some (traceRootLabel scenarioTraceDoc)) :=
  ⟨C6_rankings_bounded_sorted.1 scenarioHeapDoc 20 scenarioHeapExpected (by rfl),
   C6_rankings_bounded_sorted.2 scenarioTraceDoc 20 scenarioTraceExpected (by rfl)⟩
